import Mathlib

/-!
Shallow embedding of `build-deps-csv.py`, a dependency scanner that walks a
directory tree, parses known manifest files with regex/line heuristics, and
writes a CSV report.  Python strings are modelled as Lean `String`/`List Char`
(whitespace is modelled as ASCII whitespace, which covers every input the
program's patterns distinguish); the filesystem is modelled as a finite tree;
`os.walk` becomes a structural recursion over that tree; fallible file reads
are modelled with `Except`.  Each regex is translated into an explicit
character-level matcher following the (deterministic) backtracking behaviour
of the original pattern.
-/

/-- Model of Python `str.split(sep)` for a single-character separator:
never drops empty pieces, and the empty string yields one empty piece. -/
def splitOnChar (sep : Char) : List Char → List (List Char)
  | [] => [[]]
  | c :: cs =>
    if c = sep then [] :: splitOnChar sep cs
    else
      match splitOnChar sep cs with
      | p :: ps => (c :: p) :: ps
      | [] => [[c]]

/-- Model of Python `content.split('\n')`. -/
def splitLines (l : List Char) : List (List Char) :=
  splitOnChar ('\n') l

/-- Model of Python `str.strip()` (ASCII whitespace). -/
def pyStrip (l : List Char) : List Char :=
  ((l.dropWhile Char.isWhitespace).reverse.dropWhile Char.isWhitespace).reverse

/-- Characters stripped by Python `str.strip('"\'')`. -/
def isQuoteChar (c : Char) : Bool := c == '"' || c == '\''

/-- Model of Python `str.strip('"\'')`. -/
def pyStripQuotes (l : List Char) : List Char :=
  ((l.dropWhile isQuoteChar).reverse.dropWhile isQuoteChar).reverse

/-- Model of Python `needle in hay` (substring containment). -/
def containsSub (needle : List Char) : List Char → Bool
  | [] => needle.isEmpty
  | c :: t => needle.isPrefixOf (c :: t) || containsSub needle t

/-- Character class `[a-zA-Z0-9\-_]` used by the requirements and cargo
patterns (ASCII-only, as in the source regexes). -/
def isNameChar (c : Char) : Bool := c.isAlphanum || c == '-' || c == '_'

/-- Operator characters `[>=<~!]` of `REQUIREMENTS_PATTERN`. -/
def isReqOp (c : Char) : Bool :=
  c == '>' || c == '=' || c == '<' || c == '~' || c == '!'

/-- Matcher for `REQUIREMENTS_PATTERN = ^([a-zA-Z0-9\-_]+)\s*([>=<~!]+.*)?$`
applied with `re.match` to one (stripped) line; returns the `(name, version)`
pair the caller builds, with the `'*'` default when group 2 is absent. -/
def reqMatch (l : List Char) : Option (String × String) :=
  let name := l.takeWhile isNameChar
  if name.isEmpty then none
  else
    let rest := l.drop name.length
    let rest2 := rest.dropWhile Char.isWhitespace
    match rest2 with
    | [] => some (name.asString, ("*"))
    | c :: _ => if isReqOp c then some (name.asString, rest2.asString) else none

/-- Translation of `DependencyScanner.parse_requirements`. -/
def parse_requirements (content : String) : List (String × String) :=
  (splitLines content.data).flatMap (fun line =>
    match pyStrip line with
    | [] => []
    | '#' :: _ => []
    | l => (reqMatch l).toList)

/-- Matcher for `CARGO_PATTERN = ^([a-zA-Z0-9\-_]+)\s*=\s*"([^"]+)"` applied
with `re.match` to one (unstripped) line. -/
def cargoMatch (l : List Char) : Option (String × String) :=
  let name := l.takeWhile isNameChar
  if name.isEmpty then none
  else
    match (l.drop name.length).dropWhile Char.isWhitespace with
    | '=' :: r2 =>
      match r2.dropWhile Char.isWhitespace with
      | '"' :: r3 =>
        let ver := r3.takeWhile (fun c => c != '"')
        if ver.isEmpty then none
        else
          match r3.drop ver.length with
          | '"' :: _ => some (name.asString, ver.asString)
          | _ => none
      | _ => none
    | _ => none

/-- One line of `DependencyScanner.parse_cargo`: the updated `in_deps` flag
and the pair emitted for this line, if any. -/
def cargoStep (inDeps : Bool) (line : List Char) : Bool × Option (String × String) :=
  if containsSub (("[dependencies]").data) line then (true, none)
  else
    let inDeps2 := if inDeps && (['[']).isPrefixOf (pyStrip line) then false else inDeps
    (inDeps2, if inDeps2 then cargoMatch line else none)

/-- Line fold of `DependencyScanner.parse_cargo`. -/
def cargoFold (inDeps : Bool) : List (List Char) → List (String × String)
  | [] => []
  | line :: rest =>
    let s := cargoStep inDeps line
    s.2.toList ++ cargoFold s.1 rest

/-- Translation of `DependencyScanner.parse_cargo`. -/
def parse_cargo (content : String) : List (String × String) :=
  cargoFold false (splitLines content.data)

/-- Matcher for `PACKAGE_JSON_PATTERN = "([^"]+)":\s*"([^"]+)"` attempted at
the start of `l` (one step of `re.search`). -/
def kvTryMatch (l : List Char) : Option (String × String) :=
  match l with
  | '"' :: r1 =>
    let k := r1.takeWhile (fun c => c != '"')
    if k.isEmpty then none
    else
      match r1.drop k.length with
      | '"' :: ':' :: r2 =>
        match r2.dropWhile Char.isWhitespace with
        | '"' :: r3 =>
          let v := r3.takeWhile (fun c => c != '"')
          if v.isEmpty then none
          else
            match r3.drop v.length with
            | '"' :: _ => some (k.asString, v.asString)
            | _ => none
        | _ => none
      | _ => none
  | _ => none

/-- Model of `PACKAGE_JSON_PATTERN.search(line)`: first match anywhere. -/
def pjsonSearch : List Char → Option (String × String)
  | [] => none
  | c :: rest =>
    match kvTryMatch (c :: rest) with
    | some kv => some kv
    | none => pjsonSearch rest

/-- Line that opens a dependencies block in `parse_package_json`. -/
def pjKeyLine (line : List Char) : Bool :=
  containsSub (("\"dependencies\"").data) line ||
    containsSub (("\"devDependencies\"").data) line

/-- Line fold of `DependencyScanner.parse_package_json`. -/
def pjFold (inDeps : Bool) : List (List Char) → List (String × String)
  | [] => []
  | line :: rest =>
    if pjKeyLine line then pjFold true rest
    else if inDeps then
      if containsSub (['}']) line then pjFold false rest
      else
        match pjsonSearch line with
        | some kv => kv :: pjFold inDeps rest
        | none => pjFold inDeps rest
    else pjFold false rest

/-- Translation of `DependencyScanner.parse_package_json`. -/
def parse_package_json (content : String) : List (String × String) :=
  pjFold false (splitLines content.data)

/-- Translation of `DependencyScanner.parse_package_lock` (always empty). -/
def parse_package_lock (_ : String) : List (String × String) := []

/-- Translation of `DependencyScanner.parse_pipfile`. -/
def pipfileFold (inPkgs : Bool) : List (List Char) → List (String × String)
  | [] => []
  | line :: rest =>
    if (("[packages]").data).isPrefixOf (pyStrip line) then pipfileFold true rest
    else
      let inPkgs2 := if (['[']).isPrefixOf (pyStrip line) then false else inPkgs
      if inPkgs2 && line.contains '=' then
        let left := line.takeWhile (fun c => c != '=')
        let name := pyStrip left
        let version := pyStripQuotes (pyStrip (line.drop (left.length + 1)))
        if name.isEmpty then pipfileFold inPkgs2 rest
        else (name.asString, version.asString) :: pipfileFold inPkgs2 rest
      else pipfileFold inPkgs2 rest

/-- Translation of `DependencyScanner.parse_pipfile` (entry point). -/
def parse_pipfile (content : String) : List (String × String) :=
  pipfileFold false (splitLines content.data)

/-- Translation of `DependencyScanner.parse_pipfile_lock` (always empty). -/
def parse_pipfile_lock (_ : String) : List (String × String) := []

/-- Matcher for `GO_MOD_PATTERN = ^\s*([^\s]+)\s+v?([^\s]+)` applied with
`re.match` to one stripped line. -/
def goModMatch (l : List Char) : Option (String × String) :=
  let l1 := l.dropWhile Char.isWhitespace
  let name := l1.takeWhile (fun c => !c.isWhitespace)
  if name.isEmpty then none
  else
    let r := l1.drop name.length
    let ws := r.takeWhile Char.isWhitespace
    if ws.isEmpty then none
    else
      let seg := (r.drop ws.length).takeWhile (fun c => !c.isWhitespace)
      match seg with
      | [] => none
      | 'v' :: c :: cs => some (name.asString, (c :: cs).asString)
      | _ => some (name.asString, seg.asString)

/-- Translation of `DependencyScanner.parse_go_mod`. -/
def parse_go_mod (content : String) : List (String × String) :=
  (splitLines content.data).flatMap (fun line =>
    match pyStrip line with
    | [] => []
    | l => if (("//").data).isPrefixOf l then [] else (goModMatch l).toList)

/-- Translation of `DependencyScanner.parse_go_sum` (always empty). -/
def parse_go_sum (_ : String) : List (String × String) := []

/-- Optional version tail `(?:,\s*['\"]([^'\"]+)['\"])?` of `GEMFILE_PATTERN`;
returns the captured version and the remaining input on success. -/
def gemTryVersion (l : List Char) : Option (String × List Char) :=
  match l with
  | ',' :: r1 =>
    match r1.dropWhile Char.isWhitespace with
    | q :: r2 =>
      if isQuoteChar q then
        let body := r2.takeWhile (fun c => !isQuoteChar c)
        if body.isEmpty then none
        else
          match r2.drop body.length with
          | q2 :: r3 => if isQuoteChar q2 then some (body.asString, r3) else none
          | [] => none
      else none
    | [] => none
  | _ => none

/-- Matcher for `GEMFILE_PATTERN = gem\s+['\"]([^'\"]+)['\"](?:,...)?`
attempted at the start of `l`; returns name, version (default `"*"`), and
the input remaining after the match. -/
def gemTryMatch (l : List Char) : Option (String × String × List Char) :=
  if (("gem").data).isPrefixOf l then
    let r1 := l.drop 3
    let ws := r1.takeWhile Char.isWhitespace
    if ws.isEmpty then none
    else
      match r1.drop ws.length with
      | q :: r2 =>
        if isQuoteChar q then
          let body := r2.takeWhile (fun c => !isQuoteChar c)
          if body.isEmpty then none
          else
            match r2.drop body.length with
            | q2 :: r3 =>
              if isQuoteChar q2 then
                match gemTryVersion r3 with
                | some (ver, r4) => some (body.asString, ver, r4)
                | none => some (body.asString, ("*"), r3)
              else none
            | [] => none
        else none
      | [] => none
  else none

/-- Scanner realising `GEMFILE_PATTERN.finditer` (fuel-indexed: each step
either advances one character or consumes a whole match). -/
def gemfileAux : Nat → List Char → List (String × String)
  | 0, _ => []
  | _ + 1, [] => []
  | fuel + 1, c :: rest =>
    match gemTryMatch (c :: rest) with
    | some (name, ver, remaining) => (name, ver) :: gemfileAux fuel remaining
    | none => gemfileAux fuel rest

/-- Translation of `DependencyScanner.parse_gemfile`. -/
def parse_gemfile (content : String) : List (String × String) :=
  gemfileAux content.data.length content.data

/-- Translation of `DependencyScanner.parse_gemfile_lock` (always empty). -/
def parse_gemfile_lock (_ : String) : List (String × String) := []

/-- Translation of `DependencyScanner.parse_cargo_lock` (always empty). -/
def parse_cargo_lock (_ : String) : List (String × String) := []

/-- Scanner realising `re.findall` for the pom patterns
`<tag>([^<]+)</tag>` (fuel-indexed). -/
def findTagsAux (openT closeT : List Char) : Nat → List Char → List String
  | 0, _ => []
  | _ + 1, [] => []
  | fuel + 1, c :: rest =>
    if openT.isPrefixOf (c :: rest) then
      let after := (c :: rest).drop openT.length
      let body := after.takeWhile (fun x => x != '<')
      let after2 := after.drop body.length
      if !body.isEmpty && closeT.isPrefixOf after2 then
        body.asString :: findTagsAux openT closeT fuel (after2.drop closeT.length)
      else findTagsAux openT closeT fuel rest
    else findTagsAux openT closeT fuel rest

/-- All `<tag>text</tag>` captures in document order, as `re.findall` returns
them for `POM_*_PATTERN`. -/
def findTags (tag : String) (content : String) : List String :=
  findTagsAux ('<' :: tag.data ++ ['>']) ('<' :: '/' :: tag.data ++ ['>'])
    content.data.length content.data

/-- Translation of `DependencyScanner.parse_pom`: positional pairing of the
artifact/version lists, with `groups[i]` defaulting to `"unknown"`. -/
def parse_pom (content : String) : List (String × String) :=
  let artifacts := findTags ("artifactId") content
  let groups := findTags ("groupId") content
  let versions := findTags ("version") content
  (List.range (min artifacts.length versions.length)).map (fun i =>
    ((if i < groups.length then groups.getD i ("") else ("unknown")) ++ (":") ++
      artifacts.getD i (""), versions.getD i ("")))

/-- Matcher for the gradle pattern `implementation\s+['\"]([^'\"]+)['\"]`
attempted at the start of `l`; returns the capture and the rest. -/
def gradleTryMatch (l : List Char) : Option (List Char × List Char) :=
  if (("implementation").data).isPrefixOf l then
    let r1 := l.drop (("implementation").data).length
    let ws := r1.takeWhile Char.isWhitespace
    if ws.isEmpty then none
    else
      match r1.drop ws.length with
      | q :: r2 =>
        if isQuoteChar q then
          let body := r2.takeWhile (fun c => !isQuoteChar c)
          if body.isEmpty then none
          else
            match r2.drop body.length with
            | q2 :: r3 => if isQuoteChar q2 then some (body, r3) else none
            | [] => none
        else none
      | [] => none
  else none

/-- Record built from one gradle capture: only emitted when the capture has
at least three colon-separated parts. -/
def gradleEmit (body : List Char) : List (String × String) :=
  match splitOnChar (':') body with
  | p0 :: p1 :: p2 :: _ => [(p0.asString ++ (":") ++ p1.asString, p2.asString)]
  | _ => []

/-- Scanner realising `dep_pattern.finditer` in `parse_gradle`. -/
def gradleAux : Nat → List Char → List (String × String)
  | 0, _ => []
  | _ + 1, [] => []
  | fuel + 1, c :: rest =>
    match gradleTryMatch (c :: rest) with
    | some (body, remaining) => gradleEmit body ++ gradleAux fuel remaining
    | none => gradleAux fuel rest

/-- Translation of `DependencyScanner.parse_gradle`. -/
def parse_gradle (content : String) : List (String × String) :=
  gradleAux content.data.length content.data

/-- Line fold of `DependencyScanner.parse_composer` (same state machine as
`parse_package_json`, keyed on `"require"`). -/
def composerFold (inReq : Bool) : List (List Char) → List (String × String)
  | [] => []
  | line :: rest =>
    if containsSub (("\"require\"").data) line then composerFold true rest
    else if inReq then
      if containsSub (['}']) line then composerFold false rest
      else
        match pjsonSearch line with
        | some kv => kv :: composerFold inReq rest
        | none => composerFold inReq rest
    else composerFold false rest

/-- Translation of `DependencyScanner.parse_composer`. -/
def parse_composer (content : String) : List (String × String) :=
  composerFold false (splitLines content.data)

/-- Translation of the `DEPENDENCY_FILES` table: filename to
(ecosystem, parser). -/
def DEPENDENCY_FILES : List (String × String × (String → List (String × String))) :=
  [(("package.json"), ("npm"), parse_package_json),
   (("package-lock.json"), ("npm"), parse_package_lock),
   (("requirements.txt"), ("pip"), parse_requirements),
   (("Pipfile"), ("pip"), parse_pipfile),
   (("Pipfile.lock"), ("pip"), parse_pipfile_lock),
   (("go.mod"), ("go"), parse_go_mod),
   (("go.sum"), ("go"), parse_go_sum),
   (("Gemfile"), ("gem"), parse_gemfile),
   (("Gemfile.lock"), ("gem"), parse_gemfile_lock),
   (("Cargo.toml"), ("cargo"), parse_cargo),
   (("Cargo.lock"), ("cargo"), parse_cargo_lock),
   (("pom.xml"), ("maven"), parse_pom),
   (("build.gradle"), ("gradle"), parse_gradle),
   (("composer.json"), ("composer"), parse_composer)]

/-- Translation of the `PRUNE_DIRS` set. -/
def PRUNE_DIRS : List String :=
  [(".git"), (".svn"), (".hg"),
   ("node_modules"), ("vendor"), ("bower_components"),
   ("__pycache__"), (".pytest_cache"), (".tox"),
   ("venv"), ("env"), (".env"), (".venv"),
   ("target"), ("build"), ("dist"), (".build"),
   (".idea"), (".vscode"), (".vs")]

mutual
/-- Directory tree: regular files (name, read outcome) and subdirectories.
A file's `Except.error` content models an `IOError`/decode failure raised
while reading it. -/
inductive FSTree where
  | node : List (String × Except String String) → FSForest → FSTree
/-- List of named subdirectories of a directory. -/
inductive FSForest where
  | nil : FSForest
  | cons : String → FSTree → FSForest → FSForest
end

mutual
/-- Model of `os.walk(root, topdown=True)` as consumed by `scan`: yields
(path components below the root, filename, read outcome) for every file,
with the in-place prune filter `dirs[:] = [d for d in dirs if d not in
PRUNE_DIRS]` applied to subdirectory names before descending. -/
def walkTree : FSTree → List (List String × String × Except String String)
  | .node files sub =>
    files.map (fun fc => ([], fc.1, fc.2)) ++ walkForest sub
/-- Walk of the (already prune-filtered) subdirectory list. -/
def walkForest : FSForest → List (List String × String × Except String String)
  | .nil => []
  | .cons name t rest =>
    (if name ∈ PRUNE_DIRS then []
     else (walkTree t).map (fun x => (name :: x.1, x.2))) ++ walkForest rest
end

/-- One dependency record, as accumulated in `self.dependencies`. -/
structure DependencyRecord where
  ecosystem : String
  package : String
  version : String
  file : String
deriving DecidableEq

/-- Characters of the `/`-joined relative path
`str(file_path.relative_to(self.root_path))` (POSIX separator). -/
def joinPathChars : List String → List Char
  | [] => []
  | [x] => x.data
  | x :: xs => x.data ++ '/' :: joinPathChars xs

/-- Relative path string of a scanned file. -/
def joinPath (ps : List String) : String := (joinPathChars ps).asString

/-- Records contributed by one walked file: `_parse_dependency_file` guarded
by the `file in DEPENDENCY_FILES` check and the exception handlers of
`scan` (a raising read contributes nothing; on success the parser's complete
result list is appended). -/
def fileRecords (p : List String) (n : String) (readRes : Except String String) :
    List DependencyRecord :=
  match List.lookup n DEPENDENCY_FILES with
  | none => []
  | some (eco, parser) =>
    match readRes with
    | .error _ => []
    | .ok content =>
      (parser content).map (fun pr =>
        ⟨eco, pr.1, pr.2, joinPath (p ++ [n])⟩)

/-- Accumulating loop of `DependencyScanner.scan` over the walked files. -/
def scanFold (acc : List DependencyRecord) :
    List (List String × String × Except String String) → List DependencyRecord
  | [] => acc
  | x :: xs => scanFold (acc ++ fileRecords x.1 x.2.1 x.2.2) xs

/-- Translation of `DependencyScanner.scan`. -/
def scan (t : FSTree) : List DependencyRecord :=
  scanFold [] (walkTree t)

/-- Predicate for `csv.QUOTE_MINIMAL`: quote fields containing the
delimiter, the quote character, or a lineterminator character. -/
def csvNeedsQuote (f : List Char) : Bool :=
  f.any (fun c => c == ',' || c == '"' || c == '\r' || c == '\n')

/-- Quote doubling inside a quoted CSV field. -/
def csvEscape : List Char → List Char
  | [] => []
  | c :: cs => if c = '"' then '"' :: '"' :: csvEscape cs else c :: csvEscape cs

/-- One serialized CSV field under minimal quoting. -/
def csvField (f : List Char) : List Char :=
  if csvNeedsQuote f then '"' :: (csvEscape f ++ ['"']) else f

/-- One serialized CSV row with the `\r\n` terminator the csv module writes. -/
def csvRow : List (List Char) → List Char
  | [] => ['\r', '\n']
  | [f] => csvField f ++ ['\r', '\n']
  | f :: fs => csvField f ++ ',' :: csvRow fs

/-- Header field names of the report. -/
def HEADER : List String := [("ecosystem"), ("package"), ("version"), ("file")]

/-- Fields of one data row, in `fieldnames` order. -/
def recordFields (r : DependencyRecord) : List String :=
  [r.ecosystem, r.package, r.version, r.file]

/-- Full CSV text written by `write_csv` for a non-empty record list. -/
def csvText (deps : List DependencyRecord) : String :=
  (csvRow (HEADER.map String.data) ++
    deps.flatMap (fun r => csvRow ((recordFields r).map String.data))).asString

/-- Translation of `write_csv`: the file content written (if any) and the
diagnostics printed to standard error. -/
def write_csv (deps : List DependencyRecord) : Option String × List String :=
  if deps.isEmpty then (none, [("No dependencies found.")])
  else (some (csvText deps), [])

/-- State of the row re-parser: inside an unquoted field, inside a quoted
field, or just after a closing quote. -/
inductive RowState where
  | plain : RowState
  | quoted : RowState
  | closed : RowState

/-- Standard CSV row parser (delimiter `,`, quote `"`, doubled-quote escape,
optional `\r\n` terminator); used to state the round-trip property. -/
def parseRowAux : RowState → List Char → List String → List Char → Option (List String)
  | .quoted, _, _, [] => none
  | .plain, cur, acc, [] => some (acc ++ [cur.asString])
  | .closed, cur, acc, [] => some (acc ++ [cur.asString])
  | .plain, cur, acc, c :: rest =>
    if c = ',' then parseRowAux .plain [] (acc ++ [cur.asString]) rest
    else if c = '"' then
      if cur.isEmpty then parseRowAux .quoted [] acc rest else none
    else if c = '\r' then
      if rest = ['\n'] then some (acc ++ [cur.asString]) else none
    else parseRowAux .plain (cur ++ [c]) acc rest
  | .quoted, cur, acc, c :: rest =>
    if c = '"' then
      if rest.head? = some '"' then parseRowAux .quoted (cur ++ ['"']) acc rest.tail
      else parseRowAux .closed cur acc rest
    else parseRowAux .quoted (cur ++ [c]) acc rest
  | .closed, cur, acc, c :: rest =>
    if c = ',' then parseRowAux .plain [] (acc ++ [cur.asString]) rest
    else if c = '\r' then
      if rest = ['\n'] then some (acc ++ [cur.asString]) else none
    else none
termination_by _ _ _ l => l.length
decreasing_by all_goals (simp_wf <;> omega)

/-- Parse one CSV row back into its fields. -/
def parseRow (s : String) : Option (List String) :=
  parseRowAux .plain [] [] s.data

/-- Observable outcome of one CLI invocation: exit status, the output file
written (path, content) if any, and the standard-error lines. -/
structure CliResult where
  exitCode : Nat
  written : Option (String × String)
  err : List String
deriving DecidableEq

/-- Translation of `main`: `argv` includes the program name; the filesystem
is a lookup from the root argument to its directory tree (`none` models
`os.path.isdir` returning false). -/
def mainFn (argv : List String) (fs : String → Option FSTree) : CliResult :=
  if argv.length < 2 then
    ⟨1, none, [("Usage: build-deps-csv.py <root_directory> [output.csv]")]⟩
  else
    match fs (argv.getD 1 ("")) with
    | none => ⟨1, none, [("Error: ") ++ argv.getD 1 ("") ++ (" is not a directory")]⟩
    | some t =>
      let res := write_csv (scan t)
      ⟨0, res.1.map (fun content => (argv.getD 2 ("dependencies.csv"), content)), res.2⟩

/-- First character is the POSIX absolute-path marker. -/
def startsWithSlash (s : String) : Bool :=
  match s.data with
  | [] => false
  | c :: _ => c == '/'

/-- Well-formedness of an entry name as `os.walk` can report it: non-empty
and free of the path separator. -/
def goodName (s : String) : Bool := !s.data.isEmpty && !s.data.contains '/'

mutual
/-- All file and directory names in the tree are well-formed. -/
def treeWF : FSTree → Bool
  | .node files sub => files.all (fun fc => goodName fc.1) && forestWF sub
/-- Forest counterpart of `treeWF`. -/
def forestWF : FSForest → Bool
  | .nil => true
  | .cons name t rest => goodName name && treeWF t && forestWF rest
end

theorem splitOnChar_of_not_mem (sep : Char) (l : List Char) (h : sep ∉ l) :
    splitOnChar sep l = [l] := by
  induction l with
  | nil => rfl
  | cons c cs ih =>
    have hc : ¬ c = sep := by
      intro hcs
      exact h (hcs ▸ List.mem_cons_self c cs)
    have hcs : sep ∉ cs := fun hm => h (List.mem_cons_of_mem c hm)
    simp [splitOnChar, hc, ih hcs]

theorem wsNotNameChar (c : Char) (hc : c.isWhitespace = true) :
    isNameChar c = false := by
  simp [Char.isWhitespace] at hc
  rcases hc with ((h | h) | h) | h <;> subst h <;> decide

/-- C2: `parse_cargo`, on a text with an unrelated `[package]` section (with
`name` and `version` lines) followed by a `[dependencies]` section containing
`serde = "1.0"` and `tokio = "1.17"`, returns exactly the pairs
`("serde", "1.0")` and `("tokio", "1.17")` and nothing from `[package]`. -/
theorem parse_cargo_dependencies_section :
    parse_cargo
      ("[package]\nname = \"myapp\"\nversion = \"0.1.0\"\n\n[dependencies]\nserde = \"1.0\"\ntokio = \"1.17\"") =
      [(("serde"), ("1.0")), (("tokio"), ("1.17"))] := by
  decide

/-- C3: `parse_requirements` on the five-line example yields exactly the four
pairs, with the comment line dropped and the bare name given version `"*"`. -/
theorem parse_requirements_example :
    parse_requirements ("requests>=2.25.1\nflask==1.1.2\nnumpy\n# comment\ndjango>=3.0") =
      [(("requests"), (">=2.25.1")), (("flask"), ("==1.1.2")),
       (("numpy"), ("*")), (("django"), (">=3.0"))] := by
  decide

/-- C5: for every input, `parse_pom` returns exactly `min A V` pairs (`A`
artifact captures, `V` version captures, in document order); the `i`-th pair
is the `i`-th groupId (or `"unknown"` past the group list), a colon, and the
`i`-th artifactId, with the `i`-th version. -/
theorem parse_pom_positional_pairing (content : String) :
    (parse_pom content).length =
      min (findTags ("artifactId") content).length (findTags ("version") content).length ∧
    ∀ i, i < (parse_pom content).length →
      (parse_pom content).getD i (("") , ("")) =
        ((if i < (findTags ("groupId") content).length
            then (findTags ("groupId") content).getD i ("") else ("unknown")) ++ (":") ++
          (findTags ("artifactId") content).getD i (""),
         (findTags ("version") content).getD i ("")) := by
  constructor
  · simp [parse_pom]
  · intro i hi
    rw [List.getD_eq_getElem _ _ hi]
    simp only [parse_pom] at hi ⊢
    rw [List.getElem_map]
    rw [List.getElem_range]

theorem parse_pom_positional_pairing_witness :
    (parse_pom
      ("<groupId>org.a</groupId><artifactId>core</artifactId><version>1.2</version>")).getD 0
        (("") , ("")) = (("org.a:core"), ("1.2")) := by
  have h := (parse_pom_positional_pairing
    ("<groupId>org.a</groupId><artifactId>core</artifactId><version>1.2</version>")).2 0
    (by decide)
  rw [h]
  decide

/-- C8: a walked manifest file whose read raises contributes no records: the
accumulated list after that file equals the list before it, and the fold
continues with the remaining files; on a successful read the parser's
complete result list is appended in one step. -/
theorem scan_file_failure_atomicity (acc : List DependencyRecord) (p : List String)
    (n e : String) (rest : List (List String × String × Except String String)) :
    fileRecords p n (Except.error e) = [] ∧
    scanFold acc ((p, n, Except.error e) :: rest) = scanFold acc rest ∧
    (∀ (content eco : String) (parser : String → List (String × String)),
      List.lookup n DEPENDENCY_FILES = some (eco, parser) →
      scanFold acc ((p, n, Except.ok content) :: rest) =
        scanFold (acc ++ (parser content).map (fun pr =>
          ⟨eco, pr.1, pr.2, joinPath (p ++ [n])⟩)) rest) := by
  have h1 : fileRecords p n (Except.error e) = [] := by
    unfold fileRecords
    split
    · rfl
    · rfl
  refine ⟨h1, ?_, ?_⟩
  · simp [scanFold, h1]
  · intro content eco parser hl
    simp [scanFold, fileRecords, hl]

theorem scan_file_failure_atomicity_witness :
    scanFold [] [([], ("requirements.txt"), Except.ok ("numpy"))] =
      scanFold ([] ++ (parse_requirements ("numpy")).map (fun pr =>
        ⟨("pip"), pr.1, pr.2, joinPath ([] ++ [("requirements.txt")])⟩)) [] :=
  (scan_file_failure_atomicity [] [] ("requirements.txt") ("e") []).2.2
    ("numpy") ("pip") parse_requirements rfl

/-- C9: the line that opens a `"dependencies"`/`"devDependencies"` block is
always skipped by `parse_package_json` (it only flips the state flag and
emits nothing), so an input whose whole dependencies object sits on that
single line yields no pairs at all. -/
theorem parse_package_json_single_line_empty :
    (∀ (b : Bool) (line : List Char) (rest : List (List Char)),
      pjKeyLine line = true → pjFold b (line :: rest) = pjFold true rest) ∧
    ∀ (content : String), pjKeyLine content.data = true → ('\n') ∉ content.data →
      parse_package_json content = [] := by
  constructor
  · intro b line rest hkey
    conv_lhs => rw [pjFold]
    rw [if_pos hkey]
  · intro content hkey hnl
    unfold parse_package_json splitLines
    rw [splitOnChar_of_not_mem _ _ hnl]
    simp [pjFold, hkey]

theorem parse_package_json_single_line_empty_witness :
    parse_package_json ("\x7b\"dependencies\": \x7b\"a\": \"1.0\"\x7d\x7d") = [] :=
  parse_package_json_single_line_empty.2
    ("\x7b\"dependencies\": \x7b\"a\": \"1.0\"\x7d\x7d") (by decide) (by decide)

/-- C10: inside or outside a `[dependencies]` section, a line with leading
whitespace never produces a pair, because `CARGO_PATTERN` is start-anchored
and matched against the unstripped line; in particular an indented
dependency line under `[dependencies]` is ignored. -/
theorem parse_cargo_leading_whitespace :
    (∀ (b : Bool) (c : Char) (l : List Char), c.isWhitespace = true →
      (cargoStep b (c :: l)).2 = none) ∧
    parse_cargo ("[dependencies]\n  serde = \"1.0\"") = [] := by
  constructor
  · intro b c l hc
    have hmatch : cargoMatch (c :: l) = none := by
      simp [cargoMatch, List.takeWhile, wsNotNameChar c hc]
    unfold cargoStep
    split
    · rfl
    · simp only
      split <;> simp [hmatch]
  · decide

theorem parse_cargo_leading_whitespace_witness :
    (cargoStep true (' ' :: (("serde = \"1.0\"").data))).2 = none :=
  parse_cargo_leading_whitespace.1 true ' ' (("serde = \"1.0\"").data) (by decide)

/-- C6: with at least the root argument present and the root a directory, a
scan that found zero records writes no file, prints the notice
`No dependencies found.` to standard error and exits with status 0; the exit
status is 1 exactly when the root argument is missing or is not a directory. -/
theorem cli_exit_codes (argv : List String) (fs : String → Option FSTree) :
    ((mainFn argv fs).exitCode = 1 ↔ (argv.length < 2 ∨ fs (argv.getD 1 ("")) = none)) ∧
    (∀ t, fs (argv.getD 1 ("")) = some t → scan t = [] → ¬ argv.length < 2 →
      mainFn argv fs = ⟨0, none, [("No dependencies found.")]⟩) := by
  constructor
  · unfold mainFn
    by_cases h : argv.length < 2
    · simp [h]
    · cases hfs : fs (argv.getD 1 ("")) with
      | none => simp [h, hfs]
      | some t => simp [h, hfs]
  · intro t hfs hscan hlen
    unfold mainFn
    rw [if_neg hlen, hfs]
    simp [hscan, write_csv]

theorem cli_exit_codes_witness :
    mainFn [("build-deps-csv.py"), ("root")] (fun _ => some (FSTree.node [] FSForest.nil)) =
      ⟨0, none, [("No dependencies found.")]⟩ :=
  (cli_exit_codes [("build-deps-csv.py"), ("root")]
      (fun _ => some (FSTree.node [] FSForest.nil))).2
    (FSTree.node [] FSForest.nil) rfl rfl (by decide)

instance exceptDecEq {e a : Type} [DecidableEq e] [DecidableEq a] :
    DecidableEq (Except e a) := fun x y =>
  match x, y with
  | .error u, .error v =>
    if h : u = v then .isTrue (by rw [h])
    else .isFalse (by intro hc; injection hc with h2; exact h h2)
  | .ok u, .ok v =>
    if h : u = v then .isTrue (by rw [h])
    else .isFalse (by intro hc; injection hc with h2; exact h h2)
  | .error _, .ok _ => .isFalse (by intro hc; exact Except.noConfusion hc)
  | .ok _, .error _ => .isFalse (by intro hc; exact Except.noConfusion hc)

mutual
theorem walkTree_not_pruned :
    ∀ (t : FSTree) (x : List String × String × Except String String),
      x ∈ walkTree t → ∀ d ∈ x.1, d ∉ PRUNE_DIRS
  | .node files sub => by
    intro x hx d hd hmem
    unfold walkTree at hx
    rcases List.mem_append.mp hx with h | h
    · obtain ⟨fc, _, rfl⟩ := List.mem_map.mp h
      simp at hd
    · exact walkForest_not_pruned sub x h d hd hmem
theorem walkForest_not_pruned :
    ∀ (f : FSForest) (x : List String × String × Except String String),
      x ∈ walkForest f → ∀ d ∈ x.1, d ∉ PRUNE_DIRS
  | .nil => by
    intro x hx
    simp [walkForest] at hx
  | .cons name t rest => by
    intro x hx d hd hmem
    unfold walkForest at hx
    rcases List.mem_append.mp hx with h | h
    · by_cases hn : name ∈ PRUNE_DIRS
      · rw [if_pos hn] at h
        simp at h
      · rw [if_neg hn] at h
        obtain ⟨y, hy, rfl⟩ := List.mem_map.mp h
        simp only [List.mem_cons] at hd
        rcases hd with rfl | hd
        · exact hn hmem
        · exact walkTree_not_pruned t y hy d hd hmem
    · exact walkForest_not_pruned rest x h d hd hmem
end

/-- C1: no file yielded to `scan`'s dispatch loop lies beneath a directory
whose base name is in `PRUNE_DIRS`: every path component of every walked
file is outside the prune set, at any nesting depth, because subdirectory
names are filtered before descending. -/
theorem scan_never_reads_under_pruned (t : FSTree)
    (x : List String × String × Except String String) (hx : x ∈ walkTree t)
    (d : String) (hd : d ∈ x.1) : d ∉ PRUNE_DIRS :=
  walkTree_not_pruned t x hx d hd

theorem scan_never_reads_under_pruned_witness : ("src") ∉ PRUNE_DIRS :=
  scan_never_reads_under_pruned
    (FSTree.node [] (FSForest.cons ("src")
      (FSTree.node [(("package.json"), Except.ok (""))] FSForest.nil) FSForest.nil))
    ([("src")], ("package.json"), Except.ok (""))
    (by decide) ("src") (by decide)

theorem asString_ne_empty {l : List Char} (h : l.isEmpty = false) :
    l.asString ≠ ("") := by
  intro he
  have h3 : l = [] := congrArg String.data he
  subst h3
  simp at h

theorem lookup_mem {β : Type} (k : String) (v : β) :
    ∀ (l : List (String × β)), List.lookup k l = some v → (k, v) ∈ l
  | [] => by intro h; simp [List.lookup] at h
  | (k1, v1) :: rest => by
    intro h
    rw [List.lookup_cons] at h
    by_cases hk : (k == k1) = true
    · simp only [hk] at h
      injection h with h2
      subst h2
      have : k = k1 := eq_of_beq hk
      subst this
      exact List.mem_cons_self _ _
    · have hfk : (k == k1) = false := by simpa using hk
      simp only [hfk] at h
      exact List.mem_cons_of_mem _ (lookup_mem k v rest h)

theorem append_colon_ne (x y : String) : x ++ (":") ++ y ≠ ("") := by
  intro h
  have h2 : x.data ++ ((":") : String).data ++ y.data = ([] : List Char) := by
    have h1 := congrArg String.data h
    rwa [String.data_append, String.data_append] at h1
  rcases List.append_eq_nil.mp h2 with ⟨h3, _⟩
  rcases List.append_eq_nil.mp h3 with ⟨_, h4⟩
  exact absurd h4 (by decide)

theorem reqMatch_package_ne {l : List Char} {a b : String}
    (h : reqMatch l = some (a, b)) : a ≠ ("") := by
  simp only [reqMatch] at h
  split at h
  next he => exact absurd h (by simp)
  next he =>
    have hf : (l.takeWhile isNameChar).isEmpty = false := by simpa using he
    split at h
    next =>
      injection h with h2
      rw [Prod.mk.injEq] at h2
      exact h2.1 ▸ asString_ne_empty hf
    next =>
      split at h
      next =>
        injection h with h2
        rw [Prod.mk.injEq] at h2
        exact h2.1 ▸ asString_ne_empty hf
      next => exact absurd h (by simp)

theorem cargoMatch_package_ne {l : List Char} {a b : String}
    (h : cargoMatch l = some (a, b)) : a ≠ ("") := by
  simp only [cargoMatch] at h
  split at h
  next he => exact absurd h (by simp)
  next he =>
    have hf : (l.takeWhile isNameChar).isEmpty = false := by simpa using he
    split at h
    next =>
      split at h
      next =>
        split at h
        next => exact absurd h (by simp)
        next =>
          split at h
          next =>
            injection h with h2
            rw [Prod.mk.injEq] at h2
            exact h2.1 ▸ asString_ne_empty hf
          next => exact absurd h (by simp)
      next => exact absurd h (by simp)
    next => exact absurd h (by simp)

theorem parse_requirements_package_ne {content a b}
    (h : (a, b) ∈ parse_requirements content) : a ≠ ("") := by
  unfold parse_requirements at h
  obtain ⟨line, _, hline⟩ := List.mem_flatMap.mp h
  split at hline
  · simp at hline
  · simp at hline
  · rw [Option.mem_toList, Option.mem_def] at hline
    exact reqMatch_package_ne hline

theorem cargoStep_package_ne {b line a v}
    (h : (cargoStep b line).2 = some (a, v)) : a ≠ ("") := by
  simp only [cargoStep] at h
  split at h
  · exact absurd h (by simp)
  · split at h
    · exact absurd h (by simp)
    · split at h
      · exact cargoMatch_package_ne h
      · exact absurd h (by simp)

theorem cargoFold_package_ne :
    ∀ (lines : List (List Char)) (b : Bool) (a v : String),
      (a, v) ∈ cargoFold b lines → a ≠ ("")
  | [] => by intro b a v h; simp [cargoFold] at h
  | line :: rest => by
    intro b a v h
    unfold cargoFold at h
    rcases List.mem_append.mp h with h | h
    · have h2 : (cargoStep b line).2 = some (a, v) := by
        rw [← Option.mem_def, ← Option.mem_toList]
        exact h
      exact cargoStep_package_ne h2
    · exact cargoFold_package_ne rest _ a v h

theorem parse_cargo_package_ne {content a b}
    (h : (a, b) ∈ parse_cargo content) : a ≠ ("") :=
  cargoFold_package_ne _ _ _ _ h

theorem kvTryMatch_package_ne {l : List Char} {a b : String}
    (h : kvTryMatch l = some (a, b)) : a ≠ ("") := by
  simp only [kvTryMatch] at h
  split at h
  next =>
    split at h
    next he => exact absurd h (by simp)
    next he =>
      split at h
      next =>
        split at h
        next =>
          split at h
          next => exact absurd h (by simp)
          next =>
            split at h
            next =>
              injection h with h2
              rw [Prod.mk.injEq] at h2
              exact h2.1 ▸ asString_ne_empty (by simpa using he)
            next => exact absurd h (by simp)
        next => exact absurd h (by simp)
      next => exact absurd h (by simp)
  next => exact absurd h (by simp)

theorem pjsonSearch_package_ne :
    ∀ (l : List Char) (a b : String), pjsonSearch l = some (a, b) → a ≠ ("")
  | [] => by intro a b h; simp [pjsonSearch] at h
  | c :: rest => by
    intro a b h
    unfold pjsonSearch at h
    split at h
    next kv hkv =>
      injection h with h2
      subst h2
      exact kvTryMatch_package_ne hkv
    next => exact pjsonSearch_package_ne rest a b h

theorem pjFold_package_ne :
    ∀ (lines : List (List Char)) (b : Bool) (a v : String),
      (a, v) ∈ pjFold b lines → a ≠ ("")
  | [] => by intro b a v h; simp [pjFold] at h
  | line :: rest => by
    intro b a v h
    unfold pjFold at h
    split at h
    · exact pjFold_package_ne rest _ a v h
    · split at h
      · split at h
        · exact pjFold_package_ne rest _ a v h
        · split at h
          next kv hkv =>
            rcases List.mem_cons.mp h with h | h
            · subst h
              exact pjsonSearch_package_ne line a v hkv
            · exact pjFold_package_ne rest _ a v h
          next => exact pjFold_package_ne rest _ a v h
      · exact pjFold_package_ne rest _ a v h

theorem parse_package_json_package_ne {content a b}
    (h : (a, b) ∈ parse_package_json content) : a ≠ ("") :=
  pjFold_package_ne _ _ _ _ h

theorem composerFold_package_ne :
    ∀ (lines : List (List Char)) (b : Bool) (a v : String),
      (a, v) ∈ composerFold b lines → a ≠ ("")
  | [] => by intro b a v h; simp [composerFold] at h
  | line :: rest => by
    intro b a v h
    unfold composerFold at h
    split at h
    · exact composerFold_package_ne rest _ a v h
    · split at h
      · split at h
        · exact composerFold_package_ne rest _ a v h
        · split at h
          next kv hkv =>
            rcases List.mem_cons.mp h with h | h
            · subst h
              exact pjsonSearch_package_ne line a v hkv
            · exact composerFold_package_ne rest _ a v h
          next => exact composerFold_package_ne rest _ a v h
      · exact composerFold_package_ne rest _ a v h

theorem parse_composer_package_ne {content a b}
    (h : (a, b) ∈ parse_composer content) : a ≠ ("") :=
  composerFold_package_ne _ _ _ _ h

theorem pipfileFold_package_ne :
    ∀ (lines : List (List Char)) (b : Bool) (a v : String),
      (a, v) ∈ pipfileFold b lines → a ≠ ("")
  | [] => by intro b a v h; simp [pipfileFold] at h
  | line :: rest => by
    intro b a v h
    simp only [pipfileFold] at h
    by_cases h1 : (("[packages]").data).isPrefixOf (pyStrip line) = true
    · rw [if_pos h1] at h
      exact pipfileFold_package_ne rest _ a v h
    · rw [if_neg h1] at h
      by_cases h2 : (['[']).isPrefixOf (pyStrip line) = true
      · rw [if_pos h2] at h
        simp only [Bool.false_and] at h
        rw [if_neg (by decide)] at h
        exact pipfileFold_package_ne rest _ a v h
      · rw [if_neg h2] at h
        by_cases h3 : (b && line.contains '=') = true
        · rw [if_pos h3] at h
          by_cases h4 : (pyStrip (line.takeWhile (fun c => c != '='))).isEmpty = true
          · rw [if_pos h4] at h
            exact pipfileFold_package_ne rest _ a v h
          · rw [if_neg h4] at h
            rcases List.mem_cons.mp h with h | h
            · rw [Prod.mk.injEq] at h
              exact h.1 ▸ asString_ne_empty (by simpa using h4)
            · exact pipfileFold_package_ne rest _ a v h
        · rw [if_neg h3] at h
          exact pipfileFold_package_ne rest _ a v h

theorem parse_pipfile_package_ne {content a b}
    (h : (a, b) ∈ parse_pipfile content) : a ≠ ("") :=
  pipfileFold_package_ne _ _ _ _ h

theorem goModMatch_package_ne {l : List Char} {a b : String}
    (h : goModMatch l = some (a, b)) : a ≠ ("") := by
  simp only [goModMatch] at h
  split at h
  next he => exact absurd h (by simp)
  next he =>
    have hf := (by simpa using he :
      ((l.dropWhile Char.isWhitespace).takeWhile (fun c => !c.isWhitespace)).isEmpty = false)
    split at h
    next => exact absurd h (by simp)
    next =>
      split at h
      next => exact absurd h (by simp)
      next =>
        injection h with h2
        rw [Prod.mk.injEq] at h2
        exact h2.1 ▸ asString_ne_empty hf
      next =>
        injection h with h2
        rw [Prod.mk.injEq] at h2
        exact h2.1 ▸ asString_ne_empty hf

theorem parse_go_mod_package_ne {content a b}
    (h : (a, b) ∈ parse_go_mod content) : a ≠ ("") := by
  unfold parse_go_mod at h
  obtain ⟨line, _, hline⟩ := List.mem_flatMap.mp h
  split at hline
  · simp at hline
  · split at hline
    · simp at hline
    · rw [Option.mem_toList, Option.mem_def] at hline
      exact goModMatch_package_ne hline

theorem gemTryMatch_package_ne {l : List Char} {a v : String} {r : List Char}
    (h : gemTryMatch l = some (a, v, r)) : a ≠ ("") := by
  simp only [gemTryMatch] at h
  split at h
  next =>
    split at h
    next => exact absurd h (by simp)
    next =>
      split at h
      next =>
        split at h
        next =>
          split at h
          next he => exact absurd h (by simp)
          next he =>
            split at h
            next =>
              split at h
              next =>
                split at h
                next =>
                  injection h with h2
                  rw [Prod.mk.injEq] at h2
                  exact h2.1 ▸ asString_ne_empty (by simpa using he)
                next =>
                  injection h with h2
                  rw [Prod.mk.injEq] at h2
                  exact h2.1 ▸ asString_ne_empty (by simpa using he)
              next => exact absurd h (by simp)
            next => exact absurd h (by simp)
        next => exact absurd h (by simp)
      next => exact absurd h (by simp)
  next => exact absurd h (by simp)

theorem gemfileAux_package_ne :
    ∀ (fuel : Nat) (l : List Char) (a v : String),
      (a, v) ∈ gemfileAux fuel l → a ≠ ("")
  | 0 => by intro l a v h; simp [gemfileAux] at h
  | fuel + 1 => by
    intro l a v h
    cases l with
    | nil => simp [gemfileAux] at h
    | cons c rest =>
      unfold gemfileAux at h
      split at h
      next name ver remaining hm =>
        rcases List.mem_cons.mp h with h | h
        · rw [Prod.mk.injEq] at h
          obtain ⟨rfl, -⟩ := h
          exact gemTryMatch_package_ne hm
        · exact gemfileAux_package_ne fuel remaining a v h
      next => exact gemfileAux_package_ne fuel rest a v h

theorem parse_gemfile_package_ne {content a b}
    (h : (a, b) ∈ parse_gemfile content) : a ≠ ("") :=
  gemfileAux_package_ne _ _ _ _ h

theorem gradleEmit_package_ne {body : List Char} {a v : String}
    (h : (a, v) ∈ gradleEmit body) : a ≠ ("") := by
  unfold gradleEmit at h
  split at h
  · rw [List.mem_singleton, Prod.mk.injEq] at h
    exact h.1 ▸ append_colon_ne _ _
  · simp at h

theorem gradleAux_package_ne :
    ∀ (fuel : Nat) (l : List Char) (a v : String),
      (a, v) ∈ gradleAux fuel l → a ≠ ("")
  | 0 => by intro l a v h; simp [gradleAux] at h
  | fuel + 1 => by
    intro l a v h
    cases l with
    | nil => simp [gradleAux] at h
    | cons c rest =>
      unfold gradleAux at h
      split at h
      next body remaining hm =>
        rcases List.mem_append.mp h with h | h
        · exact gradleEmit_package_ne h
        · exact gradleAux_package_ne fuel remaining a v h
      next => exact gradleAux_package_ne fuel rest a v h

theorem parse_gradle_package_ne {content a b}
    (h : (a, b) ∈ parse_gradle content) : a ≠ ("") :=
  gradleAux_package_ne _ _ _ _ h

theorem parse_pom_package_ne {content a b}
    (h : (a, b) ∈ parse_pom content) : a ≠ ("") := by
  simp only [parse_pom] at h
  obtain ⟨i, _, heq⟩ := List.mem_map.mp h
  rw [Prod.mk.injEq] at heq
  exact heq.1 ▸ append_colon_ne _ _

theorem depFiles_package_ne :
    ∀ kv ∈ DEPENDENCY_FILES, ∀ (content a b : String),
      (a, b) ∈ kv.2.2 content → a ≠ ("") := by
  intro kv hkv content a b h
  simp only [DEPENDENCY_FILES, List.mem_cons, List.not_mem_nil, or_false] at hkv
  rcases hkv with rfl | rfl | rfl | rfl | rfl | rfl | rfl | rfl | rfl | rfl | rfl | rfl | rfl | rfl
  · exact parse_package_json_package_ne h
  · simp [parse_package_lock] at h
  · exact parse_requirements_package_ne h
  · exact parse_pipfile_package_ne h
  · simp [parse_pipfile_lock] at h
  · exact parse_go_mod_package_ne h
  · simp [parse_go_sum] at h
  · exact parse_gemfile_package_ne h
  · simp [parse_gemfile_lock] at h
  · exact parse_cargo_package_ne h
  · simp [parse_cargo_lock] at h
  · exact parse_pom_package_ne h
  · exact parse_gradle_package_ne h
  · exact parse_composer_package_ne h

mutual
theorem walkTree_goodNames :
    ∀ (t : FSTree), treeWF t = true →
      ∀ x ∈ walkTree t, (∀ d ∈ x.1, goodName d = true) ∧ goodName x.2.1 = true
  | .node files sub => by
    intro hwf x hx
    unfold treeWF at hwf
    rw [Bool.and_eq_true] at hwf
    obtain ⟨hfiles, hsub⟩ := hwf
    unfold walkTree at hx
    rcases List.mem_append.mp hx with h | h
    · obtain ⟨fc, hfc, rfl⟩ := List.mem_map.mp h
      refine ⟨by simp, ?_⟩
      exact List.all_eq_true.mp hfiles fc hfc
    · exact walkForest_goodNames sub hsub x h
theorem walkForest_goodNames :
    ∀ (f : FSForest), forestWF f = true →
      ∀ x ∈ walkForest f, (∀ d ∈ x.1, goodName d = true) ∧ goodName x.2.1 = true
  | .nil => by intro _ x hx; simp [walkForest] at hx
  | .cons name t rest => by
    intro hwf x hx
    unfold forestWF at hwf
    rw [Bool.and_eq_true, Bool.and_eq_true] at hwf
    obtain ⟨⟨hname, ht⟩, hrest⟩ := hwf
    unfold walkForest at hx
    rcases List.mem_append.mp hx with h | h
    · by_cases hn : name ∈ PRUNE_DIRS
      · rw [if_pos hn] at h
        simp at h
      · rw [if_neg hn] at h
        obtain ⟨y, hy, rfl⟩ := List.mem_map.mp h
        obtain ⟨hys, hyn⟩ := walkTree_goodNames t ht y hy
        refine ⟨?_, hyn⟩
        intro d hd
        rcases List.mem_cons.mp hd with rfl | hd
        · exact hname
        · exact hys d hd
    · exact walkForest_goodNames rest hrest x h
end

theorem scanFold_eq :
    ∀ (l : List (List String × String × Except String String))
      (acc : List DependencyRecord),
      scanFold acc l = acc ++ l.flatMap (fun x => fileRecords x.1 x.2.1 x.2.2)
  | [] => by intro acc; simp [scanFold]
  | x :: xs => by
    intro acc
    unfold scanFold
    rw [scanFold_eq xs]
    simp [List.append_assoc]

theorem fileRecords_inv {p n c r} (h : r ∈ fileRecords p n c) :
    ∃ eco parser content a b,
      List.lookup n DEPENDENCY_FILES = some (eco, parser) ∧
      (a, b) ∈ parser content ∧
      r = ⟨eco, a, b, joinPath (p ++ [n])⟩ := by
  unfold fileRecords at h
  split at h
  next => simp at h
  next eco parser hlk =>
    split at h
    next => simp at h
    next content =>
      obtain ⟨pr, hpr, rfl⟩ := List.mem_map.mp h
      exact ⟨eco, parser, content, pr.1, pr.2, hlk, by simpa using hpr, rfl⟩

theorem startsWithSlash_asString (l : List Char) :
    startsWithSlash (List.asString l) =
      (match l with | [] => false | c :: _ => (c == '/')) := rfl

theorem joinPath_not_abs :
    ∀ (ps : List String), ps ≠ [] → (∀ s ∈ ps, goodName s = true) →
      startsWithSlash (joinPath ps) = false
  | [] => by intro h _; exact absurd rfl h
  | [x] => by
    intro _ hg
    have hx := hg x (List.mem_singleton.mpr rfl)
    unfold goodName at hx
    rw [Bool.and_eq_true] at hx
    obtain ⟨hne, hns⟩ := hx
    unfold joinPath
    rw [startsWithSlash_asString]
    cases hxd : x.data with
    | nil =>
      rw [hxd] at hne
      simp at hne
    | cons c cs =>
      rw [show joinPathChars [x] = x.data from rfl, hxd]
      simp only
      rw [hxd] at hns
      simp at hns
      exact beq_eq_false_iff_ne.mpr (fun hcc => hns.1 hcc.symm)
  | x :: y :: tl => by
    intro _ hg
    have hx := hg x (List.mem_cons_self x _)
    unfold goodName at hx
    rw [Bool.and_eq_true] at hx
    obtain ⟨hne, hns⟩ := hx
    unfold joinPath
    rw [startsWithSlash_asString]
    cases hxd : x.data with
    | nil =>
      rw [hxd] at hne
      simp at hne
    | cons c cs =>
      rw [show joinPathChars (x :: y :: tl) = x.data ++ '/' :: joinPathChars (y :: tl) from rfl,
        hxd]
      simp only [List.cons_append]
      rw [hxd] at hns
      simp at hns
      exact beq_eq_false_iff_ne.mpr (fun hcc => hns.1 hcc.symm)

/-- C4: every record accumulated by a scan has a non-empty `package`, for all
fourteen dispatched parsers, and a `file` path relative to the scan root
(never an absolute path), assuming the tree's entry names are well-formed
directory-listing names. -/
theorem scan_record_invariants (t : FSTree) (hwf : treeWF t = true)
    (r : DependencyRecord) (hr : r ∈ scan t) :
    r.package ≠ ("") ∧ startsWithSlash r.file = false := by
  unfold scan at hr
  rw [scanFold_eq] at hr
  rw [List.nil_append] at hr
  obtain ⟨x, hx, hfr⟩ := List.mem_flatMap.mp hr
  obtain ⟨eco, parser, content, a, b, hlk, hab, rfl⟩ := fileRecords_inv hfr
  have hkv := lookup_mem _ _ _ hlk
  constructor
  · exact depFiles_package_ne (x.2.1, eco, parser) hkv content a b hab
  · obtain ⟨hpath, hfile⟩ := walkTree_goodNames t hwf x hx
    apply joinPath_not_abs
    · simp
    · intro s hs
      rcases List.mem_append.mp hs with h | h
      · exact hpath s h
      · rw [List.mem_singleton] at h
        subst h
        exact hfile

theorem scan_record_invariants_witness :
    (⟨("pip"), ("requests"), (">=2.25.1"), ("requirements.txt")⟩ :
        DependencyRecord).package ≠ ("") ∧
      startsWithSlash (⟨("pip"), ("requests"), (">=2.25.1"), ("requirements.txt")⟩ :
        DependencyRecord).file = false :=
  scan_record_invariants
    (FSTree.node [(("requirements.txt"), Except.ok ("requests>=2.25.1"))] FSForest.nil)
    (by decide)
    ⟨("pip"), ("requests"), (">=2.25.1"), ("requirements.txt")⟩
    (by decide)

theorem asString_data (s : String) : List.asString s.data = s := rfl

theorem parseRowAux_plain_append :
    ∀ (f cur : List Char) (acc : List String) (tail : List Char),
      (∀ c ∈ f, ¬c = ',' ∧ ¬c = '"' ∧ ¬c = '\r') →
      parseRowAux .plain cur acc (f ++ tail) = parseRowAux .plain (cur ++ f) acc tail
  | [] => by
    intro cur acc tail _
    simp
  | c :: f2 => by
    intro cur acc tail hf
    obtain ⟨hc1, hc2, hc3⟩ := hf c (List.mem_cons_self c f2)
    rw [List.cons_append]
    show parseRowAux .plain cur acc (c :: (f2 ++ tail)) = _
    simp only [parseRowAux]
    rw [if_neg hc1, if_neg hc2, if_neg hc3]
    rw [parseRowAux_plain_append f2 (cur ++ [c]) acc tail
      (fun d hd => hf d (List.mem_cons_of_mem c hd))]
    simp

theorem parseRowAux_quoted_append :
    ∀ (f cur : List Char) (acc : List String) (tail : List Char),
      tail.head? ≠ some '"' →
      parseRowAux .quoted cur acc (csvEscape f ++ '"' :: tail) =
        parseRowAux .closed (cur ++ f) acc tail
  | [] => by
    intro cur acc tail htail
    simp only [csvEscape, List.nil_append, parseRowAux, if_true]
    rw [if_neg htail]
    simp
  | c :: f2 => by
    intro cur acc tail htail
    by_cases hc : c = '"'
    · subst hc
      have hesc : csvEscape ('"' :: f2) = '"' :: '"' :: csvEscape f2 := by
        simp [csvEscape]
      rw [hesc, List.cons_append, List.cons_append]
      simp only [parseRowAux, if_true]
      rw [if_pos (show (('"' :: (csvEscape f2 ++ '"' :: tail)).head? = some '"') from rfl)]
      rw [show ('"' :: (csvEscape f2 ++ '"' :: tail)).tail =
        csvEscape f2 ++ '"' :: tail from rfl]
      rw [parseRowAux_quoted_append f2 (cur ++ ['"']) acc tail htail]
      simp
    · have hesc : csvEscape (c :: f2) = c :: csvEscape f2 := by
        simp [csvEscape, hc]
      rw [hesc, List.cons_append]
      simp only [parseRowAux]
      rw [if_neg hc]
      rw [parseRowAux_quoted_append f2 (cur ++ [c]) acc tail htail]
      simp

theorem not_special_of_not_quote {f : List Char} (hq : csvNeedsQuote f = false) :
    ∀ c ∈ f, ¬c = ',' ∧ ¬c = '"' ∧ ¬c = '\r' := by
  intro c hc
  unfold csvNeedsQuote at hq
  rw [List.any_eq_false] at hq
  have h2 := hq c hc
  simp at h2
  exact ⟨h2.1.1.1, h2.1.1.2, h2.1.2⟩

theorem parseRowAux_csvRow :
    ∀ (fs : List (List Char)) (f : List Char) (acc : List String),
      parseRowAux .plain [] acc (csvRow (f :: fs)) =
        some (acc ++ (f :: fs).map List.asString)
  | [] => by
    intro f acc
    show parseRowAux .plain [] acc (csvField f ++ ['\r', '\n']) = _
    unfold csvField
    by_cases hq : csvNeedsQuote f = true
    · rw [if_pos hq]
      rw [show ('"' :: (csvEscape f ++ ['"'])) ++ ['\r', '\n'] =
        '"' :: (csvEscape f ++ '"' :: ['\r', '\n']) from by simp]
      simp only [parseRowAux]
      rw [parseRowAux_quoted_append f [] acc ['\r', '\n'] (by decide)]
      simp [parseRowAux]
    · rw [if_neg hq]
      rw [parseRowAux_plain_append f [] acc ['\r', '\n']
        (not_special_of_not_quote (by simpa using hq))]
      simp [parseRowAux]
  | g :: gs => by
    intro f acc
    show parseRowAux .plain [] acc (csvField f ++ ',' :: csvRow (g :: gs)) = _
    unfold csvField
    by_cases hq : csvNeedsQuote f = true
    · rw [if_pos hq]
      rw [show ('"' :: (csvEscape f ++ ['"'])) ++ ',' :: csvRow (g :: gs) =
        '"' :: (csvEscape f ++ '"' :: (',' :: csvRow (g :: gs))) from by simp]
      simp only [parseRowAux]
      rw [parseRowAux_quoted_append f [] acc (',' :: csvRow (g :: gs)) (by simp)]
      simp only [List.nil_append, parseRowAux]
      rw [parseRowAux_csvRow gs g (acc ++ [List.asString f])]
      simp
    · rw [if_neg hq]
      rw [parseRowAux_plain_append f [] acc (',' :: csvRow (g :: gs))
        (not_special_of_not_quote (by simpa using hq))]
      simp only [List.nil_append, parseRowAux]
      rw [parseRowAux_csvRow gs g (acc ++ [List.asString f])]
      simp

/-- C7: `write_csv` on a non-empty record list writes the header row
`ecosystem,package,version,file` followed by one data row per record, and
re-parsing any written data row under standard CSV quoting rules reproduces
the record's (ecosystem, package, version, file) tuple exactly, for all
field contents including embedded commas and quotes. -/
theorem write_csv_roundtrip (deps : List DependencyRecord) (hne : deps ≠ []) :
    (write_csv deps).1 = some (csvText deps) ∧
    (csvRow (HEADER.map String.data)).asString = ("ecosystem,package,version,file\r\n") ∧
    ∀ r ∈ deps, parseRow ((csvRow ((recordFields r).map String.data)).asString) =
      some (recordFields r) := by
  refine ⟨?_, by decide, ?_⟩
  · unfold write_csv
    rw [if_neg (by simpa using hne)]
  · intro r _
    unfold parseRow
    rw [show ((csvRow ((recordFields r).map String.data)).asString).data =
      csvRow ((recordFields r).map String.data) from rfl]
    rw [show (recordFields r).map String.data =
      [r.ecosystem.data, r.package.data, r.version.data, r.file.data] from rfl]
    rw [parseRowAux_csvRow]
    simp [recordFields, asString_data]

theorem write_csv_roundtrip_witness :
    (write_csv [⟨("npm"), ("a,b"), ("1\"0"), ("package.json")⟩]).1 =
      some (csvText [⟨("npm"), ("a,b"), ("1\"0"), ("package.json")⟩]) ∧
    parseRow ((csvRow ((recordFields
      (⟨("npm"), ("a,b"), ("1\"0"), ("package.json")⟩ : DependencyRecord)).map
        String.data)).asString) =
      some (recordFields
        (⟨("npm"), ("a,b"), ("1\"0"), ("package.json")⟩ : DependencyRecord)) := by
  have h := write_csv_roundtrip
    [⟨("npm"), ("a,b"), ("1\"0"), ("package.json")⟩] (by decide)
  exact ⟨h.1, h.2.2 _ (List.mem_singleton.mpr rfl)⟩
